import Mathlib

/-
  Shallow embedding of `DynamicFBASimulator.py` (akhiljalan/dynamicFBA).

  Concentrations, biomass, fluxes and kinetic parameters are modelled as
  rationals; Python dicts become insertion-ordered association lists
  (`dget` / `dset` mirror `d[k]` reads and `d[k] = v` writes); fallible
  code returns `Except PyError`.  The COBRApy model object and the flux
  oracle (`model.optimize()`) are external collaborators: the model is a
  record of reactions (id, metabolites, bounds, exchange flag) and the
  oracle is a per-timestep `Solution` (a status string plus a total flux
  assignment), exactly the data the simulator reads from them.
-/

set_option maxRecDepth 100000

namespace DynFBA

/-- Decidable equality for the results of fallible calls, used to
evaluate concrete executions inside proofs. -/
instance {ε α : Type} [DecidableEq ε] [DecidableEq α] : DecidableEq (Except ε α) := fun a b =>
  match a, b with
  | .ok x, .ok y =>
    if h : x = y then .isTrue (by rw [h])
    else .isFalse (by intro hc; cases hc; exact h rfl)
  | .error x, .error y =>
    if h : x = y then .isTrue (by rw [h])
    else .isFalse (by intro hc; cases hc; exact h rfl)
  | .ok _, .error _ => .isFalse (by intro hc; cases hc)
  | .error _, .ok _ => .isFalse (by intro hc; cases hc)

/-- Errors the Python code can raise: `ValueError` (setpoint check,
inhibition-range check), `KeyError` (`get_by_id` / results lookup) and
`ZeroDivisionError` (float division by zero). -/
inductive PyError where
  | valueError : String → PyError
  | keyError : String → PyError
  | zeroDivisionError : PyError
  deriving DecidableEq, Repr

/-- A metabolite as the simulator reads it from the model: an identifier
and a compartment. -/
structure Metabolite where
  id : String
  compartment : String
  deriving DecidableEq, Repr

/-- A reaction as the simulator reads and mutates it: identifier,
participating metabolites, bounds, and whether it is one of the model's
exchange (boundary) reactions. -/
structure Reaction where
  id : String
  metabolites : List Metabolite
  lower_bound : ℚ
  upper_bound : ℚ
  exch : Bool
  deriving DecidableEq, Repr

/-- The metabolic model collaborator: its reactions.  `model.exchanges`
is the sublist of reactions flagged as exchange reactions. -/
structure Model where
  reactions : List Reaction
  deriving DecidableEq, Repr

/-- `model.exchanges` in cobra: the exchange (boundary) reactions. -/
def Model.exchangesList (M : Model) : List Reaction :=
  M.reactions.filter (fun r => r.exch)

/-- `model.reactions.get_by_id`, returning `none` instead of raising
`KeyError`; call sites re-raise where Python would. -/
def findRxn : List Reaction → String → Option Reaction
  | [], _ => none
  | r :: rest, rid => if r.id = rid then some r else findRxn rest rid

def getByIdOpt (M : Model) (rid : String) : Option Reaction :=
  findRxn M.reactions rid

/-- `reaction.lower_bound = v` on the reaction with identifier `rid`
(cobra ids are unique; updating every occurrence is the same object
mutation seen through the list). -/
def setLB : List Reaction → String → ℚ → List Reaction
  | [], _, _ => []
  | r :: rest, rid, v =>
    if r.id = rid then { r with lower_bound := v } :: setLB rest rid v
    else r :: setLB rest rid v

def setLowerBound (M : Model) (rid : String) (v : ℚ) : Model :=
  { M with reactions := setLB M.reactions rid v }

/-- `r.lower_bound = lo; r.upper_bound = hi` (used for essential
exchanges). -/
def setLBUB : List Reaction → String → ℚ → ℚ → List Reaction
  | [], _, _, _ => []
  | r :: rest, rid, lo, hi =>
    if r.id = rid then { r with lower_bound := lo, upper_bound := hi } :: setLBUB rest rid lo hi
    else r :: setLBUB rest rid lo hi

def setBothBounds (M : Model) (rid : String) (lo hi : ℚ) : Model :=
  { M with reactions := setLBUB M.reactions rid lo hi }

/-- Python dict read `d[k]` / `k in d`, on an insertion-ordered
association list. -/
def dget {α : Type} : List (String × α) → String → Option α
  | [], _ => none
  | (a, b) :: rest, k => if a = k then some b else dget rest k

/-- Python dict write `d[k] = v`: replace the value of an existing key
in place, otherwise append the new key at the end. -/
def dset {α : Type} : List (String × α) → String → α → List (String × α)
  | [], k, v => [(k, v)]
  | (a, b) :: rest, k, v =>
    if a = k then (k, v) :: rest else (a, b) :: dset rest k v

/-- `metabolite_id.endswith('_e')`. -/
def endsUnderscoreE (s : String) : Bool :=
  match s.data.reverse with
  | 'e' :: '_' :: _ => true
  | _ => false

/-- Python `str.lower()` (ASCII, which covers solver status strings). -/
def lowerChar (c : Char) : Char :=
  if 'A' ≤ c ∧ c ≤ 'Z' then Char.ofNat (c.toNat + 32) else c

def strLower (s : String) : String := ⟨s.data.map lowerChar⟩

/-- What the simulator consumes from `model.optimize()`: a status string
and the flux assignment (`sol.fluxes[rid]`), modelled total as in the
oracle contract. -/
structure Solution where
  status : String
  fluxes : String → ℚ

/-- The simulator's mutable state (the `self` fields of
`DynamicFBASimulator`).  The results dict is split into its fixed
`time_s` / `biomass_gDW` columns and the per-metabolite series. -/
structure SimState where
  model : Model
  dt : ℚ
  dt_hr : ℚ
  volume : ℚ
  initial_biomass : ℚ
  biomass : ℚ
  vmax_params : List (String × ℚ)
  km_params : List (String × ℚ)
  kn_params : List (String × ℚ)
  ext_conc : List (String × ℚ)
  setpoints : List (String × ℚ)
  exchange_reactions_map : List (String × String)
  essential_exchanges : List String
  BIOMASS_RXN : String
  results_time : List ℚ
  results_biomass : List ℚ
  results_conc : List (String × List ℚ)
  solution_feasible : Bool
  clip_negative : Bool
  deriving DecidableEq, Repr

/-- Constructor arguments of `DynamicFBASimulator.__init__` (the model
itself is passed separately, standing for `load_model(model_name)`). -/
structure Config where
  biomass_reaction_id : String := "Biomass_Ecoli_core"
  dt : ℚ := 1/100
  volume : ℚ := 1
  initial_biomass : ℚ := 2
  vmax_params : List (String × ℚ) := []
  km_params : List (String × ℚ) := []
  kn_params : List (String × ℚ) := []
  ext_conc : List (String × ℚ) := []
  setpoints : List (String × ℚ) := []
  essential_exchanges : Option (List String) := none
  clip_negative : Bool := true

/-- `_init_missing_metabolites`: every metabolite of an exchange
reaction absent from `ext_conc` is added with value `0.0`. -/
def init_missing_metabolites (M : Model) (conc0 : List (String × ℚ)) :
    List (String × ℚ) :=
  M.exchangesList.foldl
    (fun c r => r.metabolites.foldl
      (fun c met => if (dget c met.id).isNone then dset c met.id 0 else c) c)
    conc0

/-- `_check_setpoint_keys`: raise `ValueError` on the first setpoint key
missing from `ext_conc`. -/
def check_setpoint_keys : List (String × ℚ) → List (String × ℚ) → Except PyError Unit
  | [], _ => .ok ()
  | (k, _) :: rest, conc =>
    if (dget conc k).isNone then .error (.valueError k)
    else check_setpoint_keys rest conc

/-- `_get_exchange_map`: metabolite id → reaction id for every exchange
reaction with a single metabolite in compartment `e`. -/
def get_exchange_map (M : Model) : List (String × String) :=
  M.exchangesList.foldl
    (fun m r => match r.metabolites with
      | [met] => if met.compartment = "e" then dset m met.id r.id else m
      | _ => m)
    []

/-- `_apply_essential_bounds`: set bounds `[-1000, 1000]` on each listed
reaction, silently skipping identifiers absent from the model. -/
def apply_essential_bounds (M : Model) (ids : List String) : Model :=
  ids.foldl
    (fun M rid => if (getByIdOpt M rid).isSome then setBothBounds M rid (-1000) 1000 else M)
    M

/-- `_init_timeseries` metabolite columns: one empty series per tracked
metabolite. -/
def init_timeseries (conc : List (String × ℚ)) : List (String × List ℚ) :=
  conc.map (fun p => (p.1, ([] : List ℚ)))

def defaultEssentials : List String :=
  ["EX_nh4_e", "EX_pi_e", "EX_h_e", "EX_h2o_e", "EX_k_e",
   "EX_na1_e", "EX_cl_e", "EX_mg2_e", "EX_ca2_e", "EX_fe2_e"]

/-- `DynamicFBASimulator.__init__` on an already-loaded model: default
missing concentrations to zero, validate setpoint keys (`ValueError` on
failure, before any step runs), build the exchange map, apply essential
bounds, initialise the time series and the feasibility flag. -/
def mkSimulator (M0 : Model) (cfg : Config) : Except PyError SimState :=
  let conc := init_missing_metabolites M0 cfg.ext_conc
  match check_setpoint_keys cfg.setpoints conc with
  | .error e => .error e
  | .ok _ =>
    let exmap := get_exchange_map M0
    let ess := match cfg.essential_exchanges with
      | none => defaultEssentials
      | some l => if l.isEmpty then defaultEssentials else l
    .ok { model := apply_essential_bounds M0 ess
          dt := cfg.dt
          dt_hr := cfg.dt / 3600
          volume := cfg.volume
          initial_biomass := cfg.initial_biomass
          biomass := cfg.initial_biomass
          vmax_params := cfg.vmax_params
          km_params := cfg.km_params
          kn_params := cfg.kn_params
          ext_conc := conc
          setpoints := cfg.setpoints
          exchange_reactions_map := exmap
          essential_exchanges := ess
          BIOMASS_RXN := cfg.biomass_reaction_id
          results_time := []
          results_biomass := []
          results_conc := init_timeseries conc
          solution_feasible := true
          clip_negative := cfg.clip_negative }

/-- The Michaelis-Menten uptake lower bound of `_set_dynamic_bounds`
for an already-clamped concentration: `-1.0 * V_max * conc / (Km + conc)`
when `conc > 0`, else `0.0`. -/
def uptakeVal (vmax km conc : ℚ) : ℚ :=
  if 0 < conc then -1 * vmax * conc / (km + conc) else 0

/-- Part 1 of `_set_dynamic_bounds`: walk the exchange map and set each
tracked metabolite's reaction lower bound from its concentration
(`KeyError` when the reaction id is missing, `ZeroDivisionError` when
`Km + conc` is zero, as Python float division would raise). -/
def updateBoundsList (vmaxp kmp conc : List (String × ℚ)) :
    Model → List (String × String) → Except PyError Model
  | M, [] => .ok M
  | M, (mid, rid) :: rest =>
    match dget conc mid with
    | none => updateBoundsList vmaxp kmp conc M rest
    | some c0 =>
      match getByIdOpt M rid with
      | none => .error (.keyError rid)
      | some _ =>
        let c := max c0 0
        let vmax := (dget vmaxp rid).getD 10
        let km := (dget kmp rid).getD (1/100)
        if 0 < c then
          if km + c = 0 then .error .zeroDivisionError
          else updateBoundsList vmaxp kmp conc (setLowerBound M rid (-1 * vmax * c / (km + c))) rest
        else updateBoundsList vmaxp kmp conc (setLowerBound M rid 0) rest

/-- Inner loop of part 2 of `_set_dynamic_bounds`: multiply the running
inhibition factor by `Kn / (Kn + conc)` for each metabolite of the
reaction that ends in `_e`, is tracked, and has positive clamped
concentration. -/
def inhibMetsList (kn : ℚ) (conc : List (String × ℚ)) :
    ℚ → List Metabolite → Except PyError ℚ
  | acc, [] => .ok acc
  | acc, met :: rest =>
    if endsUnderscoreE met.id ∧ (dget conc met.id).isSome then
      let c := max ((dget conc met.id).getD 0) 0
      if 0 < c then
        if kn + c = 0 then .error .zeroDivisionError
        else inhibMetsList kn conc (acc * (kn / (kn + c))) rest
      else inhibMetsList kn conc acc rest
    else inhibMetsList kn conc acc rest

/-- Outer loop of part 2 of `_set_dynamic_bounds`: fold the inhibition
factor over all `(reaction_id, Kn)` entries of `kn_params`
(`KeyError` when a reaction id is missing from the model). -/
def inhibRxnsList (M : Model) (conc : List (String × ℚ)) :
    ℚ → List (String × ℚ) → Except PyError ℚ
  | acc, [] => .ok acc
  | acc, (rid, kn) :: rest =>
    match getByIdOpt M rid with
    | none => .error (.keyError rid)
    | some rxn =>
      match inhibMetsList kn conc acc rxn.metabolites with
      | .error e => .error e
      | .ok acc2 => inhibRxnsList M conc acc2 rest

/-- `_set_dynamic_bounds`: update the exchange bounds, then compute the
multiplicative biomass inhibition factor (initialised to `1.0`). -/
def set_dynamic_bounds (s : SimState) : Except PyError (Model × ℚ) :=
  match updateBoundsList s.vmax_params s.km_params s.ext_conc s.model s.exchange_reactions_map with
  | .error e => .error e
  | .ok M1 =>
    match inhibRxnsList M1 s.ext_conc 1 s.kn_params with
    | .error e => .error e
    | .ok f => .ok (M1, f)

/-- `_update_concentrations`: Euler-update every exchange-map metabolite
that is tracked and not a setpoint by
`flux * biomass * dt_hr / volume`, clipping the result to zero when
`clip_negative` and the new value is negative (`ZeroDivisionError` when
`volume` is zero, as Python float division would raise). -/
def updateConcList (fluxes : String → ℚ) (setp : List (String × ℚ))
    (b dtH vol : ℚ) (clip : Bool) :
    List (String × ℚ) → List (String × String) → Except PyError (List (String × ℚ))
  | conc, [] => .ok conc
  | conc, (mid, rid) :: rest =>
    if (dget conc mid).isNone ∨ (dget setp mid).isSome then
      updateConcList fluxes setp b dtH vol clip conc rest
    else
      if vol = 0 then .error .zeroDivisionError
      else
        let delta := fluxes rid * b * dtH / vol
        let newv := (dget conc mid).getD 0 + delta
        let v2 := if clip ∧ newv < 0 then 0 else newv
        updateConcList fluxes setp b dtH vol clip (dset conc mid v2) rest

/-- The recording loop of `step`: `for m in self.ext_conc:
self.results[m].append(self.ext_conc[m])` (`KeyError` when a tracked
metabolite has no results column). -/
def appendSnapList : List (String × List ℚ) → List (String × ℚ) →
    Except PyError (List (String × List ℚ))
  | res, [] => .ok res
  | res, (m, v) :: rest =>
    match dget res m with
    | none => .error (.keyError m)
    | some h => appendSnapList (dset res m (h ++ [v])) rest

/-- `step(t)`: apply dynamic bounds and the inhibition factor, consume
the oracle solution, flip the feasibility flag on a non-optimal status
(still continuing the step), Euler-update concentrations then biomass
(raising `ValueError` when the inhibition term leaves `[0, 1]`), and
append the snapshot to the time series.  Returns
`(new state, mu, inhibition)`. -/
def step (s : SimState) (sol : Solution) (t : Nat) :
    Except PyError (SimState × ℚ × ℚ) :=
  match updateBoundsList s.vmax_params s.km_params s.ext_conc s.model s.exchange_reactions_map with
  | .error e => .error e
  | .ok M1 =>
    match inhibRxnsList M1 s.ext_conc 1 s.kn_params with
    | .error e => .error e
    | .ok inh =>
      let feas := if strLower sol.status = "optimal" then s.solution_feasible else false
      let mu := sol.fluxes s.BIOMASS_RXN
      match updateConcList sol.fluxes s.setpoints s.biomass s.dt_hr s.volume s.clip_negative
          s.ext_conc s.exchange_reactions_map with
      | .error e => .error e
      | .ok conc2 =>
        if 0 ≤ inh ∧ inh ≤ 1 then
          let b2 := s.biomass + mu * inh * s.biomass * s.dt_hr
          match appendSnapList s.results_conc conc2 with
          | .error e => .error e
          | .ok rc =>
            .ok ({ s with
                     model := M1
                     solution_feasible := feas
                     ext_conc := conc2
                     biomass := b2
                     results_time := s.results_time ++ [s.dt * (t : ℚ)]
                     results_biomass := s.results_biomass ++ [b2]
                     results_conc := rc }, mu, inh)
        else .error (.valueError "inhibition")

/-- The loop body of `run`: before each step check the feasibility flag
and break once it is false; with `verbose` the progress check
`timestep % print_every` raises `ZeroDivisionError` when `print_every`
is zero.  Recursion is over the remaining step count. -/
def runAux (o : Nat → Solution) (pe : Nat) (vb : Bool) :
    SimState → Nat → Nat → Except PyError SimState
  | s, _, 0 => .ok s
  | s, t, k + 1 =>
    if s.solution_feasible then
      match step s (o t) t with
      | .error e => .error e
      | .ok (s', _, _) =>
        if vb ∧ pe = 0 then .error .zeroDivisionError
        else runAux o pe vb s' (t + 1) k
    else .ok s

/-- `run(n_steps, verbose)`: `print_every = int(n_steps / 10)`, then the
step loop over `range(n_steps)`. -/
def runSim (s : SimState) (o : Nat → Solution) (n : Nat) (vb : Bool) :
    Except PyError SimState :=
  runAux o (n / 10) vb s 0 n

/-- The per-metabolite inhibition factor contributed inside
`_set_dynamic_bounds` part 2: `Kn / (Kn + conc)` for a tracked
extracellular metabolite with positive clamped concentration, `1`
otherwise. -/
def metFactor (conc : List (String × ℚ)) (kn : ℚ) (met : Metabolite) : ℚ :=
  if endsUnderscoreE met.id ∧ (dget conc met.id).isSome then
    (if 0 < max ((dget conc met.id).getD 0) 0 then
      kn / (kn + max ((dget conc met.id).getD 0) 0)
    else 1)
  else 1

/-- The per-`(reaction_id, Kn)` inhibition factor: the product of the
per-metabolite factors of the reaction's metabolites (`1` for a
reaction id absent from the model, a case that actually raises). -/
def rxnFactorOf (M : Model) (conc : List (String × ℚ)) (p : String × ℚ) : ℚ :=
  match getByIdOpt M p.1 with
  | some r => (r.metabolites.map (metFactor conc p.2)).prod
  | none => 1

/-- Decidable check that every tracked concentration is non-negative. -/
def allNonneg : List (String × ℚ) → Bool
  | [] => true
  | p :: rest => if 0 ≤ p.2 then allNonneg rest else false

/-! ### Concrete model and configurations used by witnesses and
counterexamples -/

/-- A small metabolic model with three single-metabolite extracellular
exchange reactions and a biomass reaction, shaped like the reactions the
simulator reads from the textbook model. -/
def testModel : Model :=
  ⟨[⟨"EX_glc_e", [⟨"glc_e", "e"⟩], -1000, 1000, true⟩,
    ⟨"EX_o2_e", [⟨"o2_e", "e"⟩], -1000, 1000, true⟩,
    ⟨"EX_ac_e", [⟨"ac_e", "e"⟩], -1000, 1000, true⟩,
    ⟨"GROWTH", [], 0, 1000, false⟩]⟩

/-- Fallback state for extracting the `ok` value of a concrete
construction. -/
def dummySim : SimState :=
  { model := ⟨[]⟩, dt := 0, dt_hr := 0, volume := 1, initial_biomass := 0,
    biomass := 0, vmax_params := [], km_params := [], kn_params := [],
    ext_conc := [], setpoints := [], exchange_reactions_map := [],
    essential_exchanges := [], BIOMASS_RXN := "", results_time := [],
    results_biomass := [], results_conc := [], solution_feasible := true,
    clip_negative := true }

/-- Glucose-only configuration (scenario A / scenario B shape). -/
def cfgB : Config := { biomass_reaction_id := "GROWTH", ext_conc := [("glc_e", 10)] }

def simB : SimState := (mkSimulator testModel cfgB).toOption.getD dummySim

/-- Oracle of end-to-end scenario B: optimal on the first two steps,
infeasible from the third on. -/
def oracleB : Nat → Solution :=
  fun t => { status := if t < 2 then "optimal" else "infeasible", fluxes := fun _ => 0 }

/-- An always-optimal, all-zero-flux oracle. -/
def oracleOpt : Nat → Solution :=
  fun _ => { status := "optimal", fluxes := fun _ => 0 }

/-- Configuration with setpoint `o2_e = 0.21` but no user-supplied
initial concentration for `o2_e` (scenario C shape). -/
def cfgSetO2 : Config :=
  { biomass_reaction_id := "GROWTH", ext_conc := [], setpoints := [("o2_e", 21/100)] }

def simO2 : SimState := (mkSimulator testModel cfgSetO2).toOption.getD dummySim

/-- Oracle with a nonzero flux on the `o2_e` exchange every step. -/
def oracleO2 : Nat → Solution :=
  fun _ => { status := "optimal", fluxes := fun rid => if rid = "EX_o2_e" then 5 else 0 }

/-- Configuration with an inhibition constant `Kn = 0` on a reaction
whose extracellular metabolite has positive concentration. -/
def cfgKn0 : Config :=
  { biomass_reaction_id := "GROWTH", ext_conc := [("ac_e", 1)],
    kn_params := [("EX_ac_e", 0)] }

def simKn0 : SimState := (mkSimulator testModel cfgKn0).toOption.getD dummySim

/-- An optimal zero-flux solution. -/
def solOpt0 : Solution := { status := "optimal", fluxes := fun _ => 0 }

/-- Scenario-A fluxes: glucose uptake `-9.99`, growth rate `0.5`. -/
def solA : Solution :=
  { status := "optimal",
    fluxes := fun rid => if rid = "EX_glc_e" then -(999/100) else if rid = "GROWTH" then 1/2 else 0 }

/-- The concrete result of one scenario-A step from `simB`. -/
def resA : SimState × ℚ × ℚ := (step simB solA 0).toOption.getD (dummySim, 0, 0)

/-- The concrete result of one step from the `Kn = 0` configuration. -/
def resKn0 : SimState × ℚ × ℚ := (step simKn0 solOpt0 0).toOption.getD (dummySim, 0, 0)

/-- The model after one pass of dynamic bounds over `simB`. -/
def mBnd : Model :=
  (updateBoundsList simB.vmax_params simB.km_params simB.ext_conc simB.model
    simB.exchange_reactions_map).toOption.getD ⟨[]⟩

/-- Two disjoint reactions with one extracellular metabolite each, for
the two-inhibitor product law. -/
def inhibModel : Model :=
  ⟨[⟨"R1", [⟨"p1_e", "e"⟩], 0, 0, false⟩,
    ⟨"R2", [⟨"p2_e", "e"⟩], 0, 0, false⟩]⟩

def inhibConc : List (String × ℚ) := [("p1_e", 2), ("p2_e", 3)]

/-! ### Association-list (Python dict) lemmas -/

theorem dget_dset_self {α : Type} (l : List (String × α)) (k : String) (v : α) :
    dget (dset l k v) k = some v := by
  induction l with
  | nil => simp [dget, dset]
  | cons p rest ih =>
    by_cases h : p.1 = k
    · simp [dset, h, dget]
    · simp [dset, h, dget, ih]

theorem dget_dset_ne {α : Type} (l : List (String × α)) (k k' : String) (v : α)
    (h : k' ≠ k) : dget (dset l k v) k' = dget l k' := by
  have hkk : ¬(k = k') := fun hk => h hk.symm
  induction l with
  | nil => simp [dget, dset, hkk]
  | cons p rest ih =>
    obtain ⟨a, b⟩ := p
    by_cases hp : a = k
    · subst hp
      simp [dset, dget, hkk]
    · by_cases hp' : a = k'
      · simp [dset, hp, dget, hp', h]
      · simp [dset, hp, dget, hp', ih]

theorem dset_map_fst {α : Type} (l : List (String × α)) (k : String) (v : α)
    (h : (dget l k).isSome) : (dset l k v).map Prod.fst = l.map Prod.fst := by
  induction l with
  | nil => simp [dget] at h
  | cons p rest ih =>
    by_cases hp : p.1 = k
    · simp [dset, hp]
    · simp [dget, hp] at h
      simp [dset, hp, ih h]

theorem mem_dset {α : Type} (l : List (String × α)) (k : String) (v : α)
    (q : String × α) (hq : q ∈ dset l k v) : q = (k, v) ∨ q ∈ l := by
  induction l with
  | nil => simp [dset] at hq; simp [hq]
  | cons p rest ih =>
    by_cases hp : p.1 = k
    · simp [dset, hp] at hq
      rcases hq with h | h
      · exact Or.inl h
      · exact Or.inr (List.mem_cons_of_mem _ h)
    · simp [dset, hp] at hq
      rcases hq with h | h
      · exact Or.inr (by simp [h])
      · rcases ih h with h' | h'
        · exact Or.inl h'
        · exact Or.inr (List.mem_cons_of_mem _ h')

theorem dget_mem {α : Type} (l : List (String × α)) (k : String) (v : α)
    (h : dget l k = some v) : (k, v) ∈ l := by
  induction l with
  | nil => simp [dget] at h
  | cons p rest ih =>
    obtain ⟨a, b⟩ := p
    by_cases hp : a = k
    · subst hp
      simp [dget] at h
      simp [h]
    · simp [dget, hp] at h
      exact List.mem_cons_of_mem _ (ih h)

/-! ### Reaction-list lemmas -/

theorem findRxn_setLB_self (l : List Reaction) (rid : String) (v : ℚ) :
    findRxn (setLB l rid v) rid =
      (findRxn l rid).map (fun r => { r with lower_bound := v }) := by
  induction l with
  | nil => simp [findRxn, setLB]
  | cons r rest ih =>
    by_cases h : r.id = rid
    · simp [setLB, h, findRxn]
    · simp [setLB, h, findRxn, ih]

theorem findRxn_setLB_ne (l : List Reaction) (rid q : String) (v : ℚ)
    (h : q ≠ rid) : findRxn (setLB l rid v) q = findRxn l q := by
  have hrq : ¬(rid = q) := fun hk => h hk.symm
  induction l with
  | nil => simp [findRxn, setLB]
  | cons r rest ih =>
    by_cases hr : r.id = rid
    · have hq : ¬(r.id = q) := fun hq => h (hq ▸ hr ▸ rfl)
      simp [setLB, hr, findRxn, hrq, hq, ih]
    · by_cases hq : r.id = q
      · simp [setLB, hr, findRxn, hq, h]
      · simp [setLB, hr, findRxn, hq, ih]

/-! ### Dynamic-bounds fold lemmas -/

theorem ubl_notmem (vp kp conc : List (String × ℚ)) (rid : String) :
    ∀ (l : List (String × String)) (M M' : Model),
      rid ∉ l.map Prod.snd →
      updateBoundsList vp kp conc M l = .ok M' →
      findRxn M'.reactions rid = findRxn M.reactions rid := by
  intro l
  induction l with
  | nil =>
    intro M M' _ h
    simp [updateBoundsList] at h
    rw [h]
  | cons p rest ih =>
    obtain ⟨mid', rid'⟩ := p
    intro M M' hmem h
    simp only [List.map_cons, List.mem_cons, not_or] at hmem
    obtain ⟨hne, hrest⟩ := hmem
    rw [updateBoundsList] at h
    cases hd : dget conc mid' with
    | none =>
      rw [hd] at h
      exact ih M M' hrest h
    | some c0 =>
      rw [hd] at h
      cases hg : getByIdOpt M rid' with
      | none => rw [hg] at h; exact absurd h (by simp)
      | some r =>
        rw [hg] at h
        simp only at h
        split at h
        · split at h
          · exact absurd h (by simp)
          · rw [ih _ _ hrest h]
            exact findRxn_setLB_ne _ _ _ _ hne
        · rw [ih _ _ hrest h]
          exact findRxn_setLB_ne _ _ _ _ hne

theorem ubl_mem (vp kp conc : List (String × ℚ)) (mid rid : String) (c0 : ℚ) :
    ∀ (l : List (String × String)) (M M' : Model),
      (l.map Prod.snd).Nodup →
      (mid, rid) ∈ l →
      dget conc mid = some c0 →
      updateBoundsList vp kp conc M l = .ok M' →
      (findRxn M'.reactions rid).map Reaction.lower_bound =
        some (uptakeVal ((dget vp rid).getD 10) ((dget kp rid).getD (1/100)) (max c0 0)) := by
  intro l
  induction l with
  | nil => intro M M' _ hmem; simp at hmem
  | cons p rest ih =>
    obtain ⟨mid', rid'⟩ := p
    intro M M' hnd hmem hc h
    simp only [List.map_cons, List.nodup_cons] at hnd
    obtain ⟨hnotin, hndrest⟩ := hnd
    rcases List.mem_cons.mp hmem with heq | hmemrest
    · obtain ⟨rfl, rfl⟩ : mid = mid' ∧ rid = rid' := by
        simpa only [Prod.mk.injEq] using heq
      rw [updateBoundsList, hc] at h
      cases hg : getByIdOpt M rid with
      | none => rw [hg] at h; exact absurd h (by simp)
      | some r =>
        rw [hg] at h
        simp only at h
        split at h
        · rename_i hpos
          split at h
          · exact absurd h (by simp)
          · have hfix := ubl_notmem vp kp conc rid rest _ _ hnotin h
            rw [hfix]
            unfold setLowerBound
            rw [findRxn_setLB_self]
            unfold getByIdOpt at hg
            rw [hg]
            simp [uptakeVal, hpos]
        · rename_i hpos
          have hfix := ubl_notmem vp kp conc rid rest _ _ hnotin h
          rw [hfix]
          unfold setLowerBound
          rw [findRxn_setLB_self]
          unfold getByIdOpt at hg
          rw [hg]
          simp [uptakeVal, hpos]
    · have hridrest : rid ∈ rest.map Prod.snd :=
        List.mem_map.mpr ⟨(mid, rid), hmemrest, rfl⟩
      rw [updateBoundsList] at h
      cases hd : dget conc mid' with
      | none =>
        rw [hd] at h
        exact ih M M' hndrest hmemrest hc h
      | some c0' =>
        rw [hd] at h
        cases hg : getByIdOpt M rid' with
        | none => rw [hg] at h; exact absurd h (by simp)
        | some r =>
          rw [hg] at h
          simp only at h
          split at h
          · split at h
            · exact absurd h (by simp)
            · exact ih _ M' hndrest hmemrest hc h
          · exact ih _ M' hndrest hmemrest hc h

/-! ### Concentration-update fold lemmas -/

theorem ucl_notmem (fluxes : String → ℚ) (setp : List (String × ℚ))
    (b dtH vol : ℚ) (clip : Bool) (mid : String) :
    ∀ (l : List (String × String)) (conc conc' : List (String × ℚ)),
      mid ∉ l.map Prod.fst →
      updateConcList fluxes setp b dtH vol clip conc l = .ok conc' →
      dget conc' mid = dget conc mid := by
  intro l
  induction l with
  | nil =>
    intro conc conc' _ h
    simp [updateConcList] at h
    rw [h]
  | cons p rest ih =>
    obtain ⟨mid', rid'⟩ := p
    intro conc conc' hmem h
    simp only [List.map_cons, List.mem_cons, not_or] at hmem
    obtain ⟨hne, hrest⟩ := hmem
    rw [updateConcList] at h
    split at h
    · exact ih _ _ hrest h
    · split at h
      · exact absurd h (by simp)
      · rw [ih _ _ hrest h]
        exact dget_dset_ne _ _ _ _ hne

theorem ucl_mem (fluxes : String → ℚ) (setp : List (String × ℚ))
    (b dtH vol : ℚ) (clip : Bool) (mid rid : String) (c : ℚ) :
    ∀ (l : List (String × String)) (conc conc' : List (String × ℚ)),
      (l.map Prod.fst).Nodup →
      (mid, rid) ∈ l →
      dget setp mid = none →
      dget conc mid = some c →
      updateConcList fluxes setp b dtH vol clip conc l = .ok conc' →
      dget conc' mid =
        some (if clip ∧ c + fluxes rid * b * dtH / vol < 0 then 0
              else c + fluxes rid * b * dtH / vol) := by
  intro l
  induction l with
  | nil => intro conc conc' _ hmem; simp at hmem
  | cons p rest ih =>
    obtain ⟨mid', rid'⟩ := p
    intro conc conc' hnd hmem hsp hc h
    simp only [List.map_cons, List.nodup_cons] at hnd
    obtain ⟨hnotin, hndrest⟩ := hnd
    rcases List.mem_cons.mp hmem with heq | hmemrest
    · obtain ⟨rfl, rfl⟩ : mid = mid' ∧ rid = rid' := by
        simpa only [Prod.mk.injEq] using heq
      rw [updateConcList] at h
      rw [hc, hsp] at h
      simp only [Option.isNone_some, Option.isSome_none, Bool.false_eq_true, or_self,
        if_false] at h
      split at h
      · exact absurd h (by simp)
      · rw [ucl_notmem fluxes setp b dtH vol clip mid rest _ _ hnotin h]
        rw [dget_dset_self]
        simp
    · have hne : mid ≠ mid' := by
        intro hcontra
        exact hnotin (hcontra ▸ List.mem_map.mpr ⟨(mid, rid), hmemrest, rfl⟩)
      rw [updateConcList] at h
      split at h
      · exact ih _ _ hndrest hmemrest hsp hc h
      · split at h
        · exact absurd h (by simp)
        · refine ih _ _ hndrest hmemrest hsp ?_ h
          rw [dget_dset_ne _ _ _ _ hne]
          exact hc

theorem ucl_setpoint (fluxes : String → ℚ) (setp : List (String × ℚ))
    (b dtH vol : ℚ) (clip : Bool) (m : String) :
    ∀ (l : List (String × String)) (conc conc' : List (String × ℚ)),
      (dget setp m).isSome →
      updateConcList fluxes setp b dtH vol clip conc l = .ok conc' →
      dget conc' m = dget conc m := by
  intro l
  induction l with
  | nil =>
    intro conc conc' _ h
    simp [updateConcList] at h
    rw [h]
  | cons p rest ih =>
    obtain ⟨mid', rid'⟩ := p
    intro conc conc' hm h
    rw [updateConcList] at h
    split at h
    · exact ih _ _ hm h
    · rename_i hskip
      simp only [not_or] at hskip
      have hne : m ≠ mid' := by
        intro hcontra
        subst hcontra
        exact hskip.2 (by simpa using hm)
      split at h
      · exact absurd h (by simp)
      · rw [ih _ _ hm h]
        exact dget_dset_ne _ _ _ _ hne

theorem ucl_keys (fluxes : String → ℚ) (setp : List (String × ℚ))
    (b dtH vol : ℚ) (clip : Bool) :
    ∀ (l : List (String × String)) (conc conc' : List (String × ℚ)),
      updateConcList fluxes setp b dtH vol clip conc l = .ok conc' →
      conc'.map Prod.fst = conc.map Prod.fst := by
  intro l
  induction l with
  | nil =>
    intro conc conc' h
    simp [updateConcList] at h
    rw [h]
  | cons p rest ih =>
    obtain ⟨mid', rid'⟩ := p
    intro conc conc' h
    rw [updateConcList] at h
    split at h
    · exact ih _ _ h
    · rename_i hskip
      simp only [not_or] at hskip
      split at h
      · exact absurd h (by simp)
      · rw [ih _ _ h]
        exact dset_map_fst _ _ _ (by
          rcases hsk : dget conc mid' with _ | v
          · exact absurd hsk (by simpa [Option.isNone_iff_eq_none] using hskip.1)
          · simp)

theorem allNonneg_iff (l : List (String × ℚ)) :
    allNonneg l = true ↔ ∀ p ∈ l, 0 ≤ p.2 := by
  induction l with
  | nil => simp [allNonneg]
  | cons p rest ih =>
    by_cases h : 0 ≤ p.2
    · simp [allNonneg, h, ih]
    · constructor
      · intro hl
        rw [allNonneg, if_neg h] at hl
        exact absurd hl (by simp)
      · intro hall
        exact absurd (hall p (by simp)) h

theorem ucl_allNonneg (fluxes : String → ℚ) (setp : List (String × ℚ))
    (b dtH vol : ℚ) :
    ∀ (l : List (String × String)) (conc conc' : List (String × ℚ)),
      (∀ p ∈ conc, 0 ≤ p.2) →
      updateConcList fluxes setp b dtH vol true conc l = .ok conc' →
      ∀ p ∈ conc', 0 ≤ p.2 := by
  intro l
  induction l with
  | nil =>
    intro conc conc' hnn h
    simp [updateConcList] at h
    rw [← h]
    exact hnn
  | cons p rest ih =>
    obtain ⟨mid', rid'⟩ := p
    intro conc conc' hnn h
    rw [updateConcList] at h
    split at h
    · exact ih _ _ hnn h
    · split at h
      · exact absurd h (by simp)
      · refine ih _ _ ?_ h
        intro q hq
        rcases mem_dset _ _ _ _ hq with hq' | hq'
        · subst hq'
          simp only
          split
          · exact le_refl 0
          · rename_i hv
            simp only [true_and, not_lt] at hv
            exact hv
        · exact hnn q hq'

/-! ### Snapshot-recording fold lemmas -/

theorem asl_notmem (m : String) :
    ∀ (conc : List (String × ℚ)) (res res' : List (String × List ℚ)),
      m ∉ conc.map Prod.fst →
      appendSnapList res conc = .ok res' →
      dget res' m = dget res m := by
  intro conc
  induction conc with
  | nil =>
    intro res res' _ h
    simp [appendSnapList] at h
    rw [h]
  | cons p rest ih =>
    obtain ⟨m', v⟩ := p
    intro res res' hmem h
    simp only [List.map_cons, List.mem_cons, not_or] at hmem
    obtain ⟨hne, hrest⟩ := hmem
    rw [appendSnapList] at h
    cases hd : dget res m' with
    | none => rw [hd] at h; exact absurd h (by simp)
    | some hist =>
      rw [hd] at h
      rw [ih _ _ hrest h]
      exact dget_dset_ne _ _ _ _ hne

theorem asl_mem (m : String) (v : ℚ) :
    ∀ (conc : List (String × ℚ)) (res res' : List (String × List ℚ)),
      (conc.map Prod.fst).Nodup →
      (m, v) ∈ conc →
      appendSnapList res conc = .ok res' →
      dget res' m = (dget res m).map (fun h => h ++ [v]) := by
  intro conc
  induction conc with
  | nil => intro res res' _ hmem; simp at hmem
  | cons p rest ih =>
    obtain ⟨m', v'⟩ := p
    intro res res' hnd hmem h
    simp only [List.map_cons, List.nodup_cons] at hnd
    obtain ⟨hnotin, hndrest⟩ := hnd
    rcases List.mem_cons.mp hmem with heq | hmemrest
    · obtain ⟨rfl, rfl⟩ : m = m' ∧ v = v' := by
        simpa only [Prod.mk.injEq] using heq
      rw [appendSnapList] at h
      cases hd : dget res m with
      | none => rw [hd] at h; exact absurd h (by simp)
      | some hist =>
        rw [hd] at h
        rw [asl_notmem m rest _ _ hnotin h]
        rw [dget_dset_self]
        simp
    · have hne : m ≠ m' := by
        intro hcontra
        exact hnotin (hcontra ▸ List.mem_map.mpr ⟨(m, v), hmemrest, rfl⟩)
      rw [appendSnapList] at h
      cases hd : dget res m' with
      | none => rw [hd] at h; exact absurd h (by simp)
      | some hist =>
        rw [hd] at h
        rw [ih _ _ hndrest hmemrest h]
        rw [dget_dset_ne _ _ _ _ hne]

/-! ### Inhibition-factor fold lemmas -/

theorem iml_ok (kn : ℚ) (conc : List (String × ℚ)) :
    ∀ (mets : List Metabolite) (acc r : ℚ),
      inhibMetsList kn conc acc mets = .ok r →
      r = acc * (mets.map (metFactor conc kn)).prod := by
  intro mets
  induction mets with
  | nil =>
    intro acc r h
    simp [inhibMetsList] at h
    simp [h.symm]
  | cons met rest ih =>
    intro acc r h
    rw [inhibMetsList] at h
    by_cases hq : endsUnderscoreE met.id ∧ (dget conc met.id).isSome
    · rw [if_pos hq] at h
      by_cases hpos : 0 < max ((dget conc met.id).getD 0) 0
      · rw [if_pos hpos] at h
        split at h
        · exact absurd h (by simp)
        · rw [ih _ _ h]
          simp only [List.map_cons, List.prod_cons, metFactor, if_pos hq, if_pos hpos]
          ring
      · rw [if_neg hpos] at h
        rw [ih _ _ h]
        simp only [List.map_cons, List.prod_cons, metFactor, if_pos hq, if_neg hpos]
        ring
    · rw [if_neg hq] at h
      rw [ih _ _ h]
      simp only [List.map_cons, List.prod_cons, metFactor, if_neg hq]
      ring

theorem irl_ok (M : Model) (conc : List (String × ℚ)) :
    ∀ (l : List (String × ℚ)) (acc f : ℚ),
      inhibRxnsList M conc acc l = .ok f →
      f = acc * (l.map (rxnFactorOf M conc)).prod := by
  intro l
  induction l with
  | nil =>
    intro acc f h
    simp [inhibRxnsList] at h
    simp [h.symm]
  | cons p rest ih =>
    obtain ⟨rid, kn⟩ := p
    intro acc f h
    rw [inhibRxnsList] at h
    cases hg : getByIdOpt M rid with
    | none => rw [hg] at h; exact absurd h (by simp)
    | some rxn =>
      rw [hg] at h
      simp only at h
      cases hm : inhibMetsList kn conc acc rxn.metabolites with
      | error e => rw [hm] at h; exact absurd h (by simp)
      | ok acc2 =>
        rw [hm] at h
        rw [ih _ _ h, iml_ok kn conc _ _ _ hm]
        simp only [List.map_cons, List.prod_cons, rxnFactorOf, hg]
        ring

/-! ### Anatomy of a successful `step` -/

theorem step_ok_elim (s : SimState) (sol : Solution) (t : Nat) (s' : SimState)
    (mu inh : ℚ) (h : step s sol t = .ok (s', mu, inh)) :
    ∃ (M1 : Model) (conc2 : List (String × ℚ)) (rc : List (String × List ℚ)),
      updateBoundsList s.vmax_params s.km_params s.ext_conc s.model
        s.exchange_reactions_map = .ok M1 ∧
      inhibRxnsList M1 s.ext_conc 1 s.kn_params = .ok inh ∧
      updateConcList sol.fluxes s.setpoints s.biomass s.dt_hr s.volume
        s.clip_negative s.ext_conc s.exchange_reactions_map = .ok conc2 ∧
      (0 ≤ inh ∧ inh ≤ 1) ∧
      appendSnapList s.results_conc conc2 = .ok rc ∧
      mu = sol.fluxes s.BIOMASS_RXN ∧
      s' = { s with
               model := M1
               solution_feasible :=
                 if strLower sol.status = "optimal" then s.solution_feasible else false
               ext_conc := conc2
               biomass := s.biomass + mu * inh * s.biomass * s.dt_hr
               results_time := s.results_time ++ [s.dt * (t : ℚ)]
               results_biomass :=
                 s.results_biomass ++ [s.biomass + mu * inh * s.biomass * s.dt_hr]
               results_conc := rc } := by
  rw [step] at h
  cases hb : updateBoundsList s.vmax_params s.km_params s.ext_conc s.model
      s.exchange_reactions_map with
  | error e => rw [hb] at h; exact absurd h (by simp)
  | ok M1 =>
    rw [hb] at h
    simp only at h
    cases hi : inhibRxnsList M1 s.ext_conc 1 s.kn_params with
    | error e => rw [hi] at h; exact absurd h (by simp)
    | ok inh0 =>
      rw [hi] at h
      simp only at h
      cases hu : updateConcList sol.fluxes s.setpoints s.biomass s.dt_hr s.volume
          s.clip_negative s.ext_conc s.exchange_reactions_map with
      | error e => rw [hu] at h; exact absurd h (by simp)
      | ok conc2 =>
        rw [hu] at h
        simp only at h
        split at h
        · rename_i hrange
          cases ha : appendSnapList s.results_conc conc2 with
          | error e => rw [ha] at h; exact absurd h (by simp)
          | ok rc =>
            rw [ha] at h
            simp only [Except.ok.injEq, Prod.mk.injEq] at h
            obtain ⟨hst, hmu, hinh⟩ := h
            subst hmu
            subst hinh
            subst hst
            exact ⟨M1, conc2, rc, rfl, hi, rfl, hrange, ha, rfl, rfl⟩
        · exact absurd h (by simp)

/-- Field bookkeeping of a successful step, read off `step_ok_elim`. -/
theorem step_fields (s : SimState) (sol : Solution) (t : Nat) (s' : SimState)
    (mu inh : ℚ) (h : step s sol t = .ok (s', mu, inh)) :
    s'.solution_feasible =
      (if strLower sol.status = "optimal" then s.solution_feasible else false) ∧
    s'.results_time.length = s.results_time.length + 1 ∧
    s'.setpoints = s.setpoints ∧
    s'.clip_negative = s.clip_negative ∧
    s'.biomass = s.biomass + mu * inh * s.biomass * s.dt_hr := by
  obtain ⟨M1, conc2, rc, _, _, _, _, _, _, rfl⟩ := step_ok_elim s sol t s' mu inh h
  refine ⟨rfl, ?_, rfl, rfl, rfl⟩
  simp

/-! ### Run-loop lemmas -/

theorem runAux_succ (o : Nat → Solution) (pe : Nat) (vb : Bool) (s : SimState)
    (t k : Nat) :
    runAux o pe vb s t (k + 1) =
      (if s.solution_feasible then
        match step s (o t) t with
        | .error e => .error e
        | .ok (s', _, _) =>
          if vb ∧ pe = 0 then .error .zeroDivisionError
          else runAux o pe vb s' (t + 1) k
      else .ok s) := rfl

theorem runAux_stuck (o : Nat → Solution) (pe : Nat) (vb : Bool) (s : SimState)
    (t k : Nat) (hf : s.solution_feasible = false) :
    runAux o pe vb s t k = .ok s := by
  cases k with
  | zero => rfl
  | succ k => rw [runAux_succ, hf]; simp

theorem runAux_preserve (o : Nat → Solution) (pe : Nat) (vb : Bool)
    (P : SimState → Prop)
    (hstep : ∀ s sol t s' mu inh, step s sol t = .ok (s', mu, inh) → P s → P s') :
    ∀ (k t : Nat) (s s' : SimState),
      runAux o pe vb s t k = .ok s' → P s → P s' := by
  intro k
  induction k with
  | zero =>
    intro t s s' h hP
    simp [runAux] at h
    rw [← h]
    exact hP
  | succ k ih =>
    intro t s s' h hP
    rw [runAux_succ] at h
    split at h
    · cases hst : step s (o t) t with
      | error e => rw [hst] at h; exact absurd h (by simp)
      | ok r =>
        obtain ⟨s1, mu1, inh1⟩ := r
        rw [hst] at h
        simp only at h
        split at h
        · exact absurd h (by simp)
        · exact ih _ _ _ h (hstep _ _ _ _ _ _ hst hP)
    · simp only [Except.ok.injEq] at h
      rw [← h]
      exact hP

/-! ### Claim C2 -/

theorem check_setpoint_keys_isOk (conc : List (String × ℚ)) :
    ∀ sp : List (String × ℚ),
      (check_setpoint_keys sp conc).isOk = true ↔
        ∀ p ∈ sp, (dget conc p.1).isSome = true := by
  intro sp
  induction sp with
  | nil => simp [check_setpoint_keys, Except.isOk, Except.toBool]
  | cons p rest ih =>
    obtain ⟨k, v⟩ := p
    by_cases h : (dget conc k).isNone
    · rw [check_setpoint_keys, if_pos h]
      simp only [Except.isOk, Except.toBool]
      constructor
      · intro hfalse; exact absurd hfalse (by simp)
      · intro hall
        have := hall (k, v) (by simp)
        rw [Option.isNone_iff_eq_none] at h
        rw [h] at this
        exact absurd this (by simp)
    · rw [check_setpoint_keys, if_neg h]
      rw [ih]
      constructor
      · intro hall p hp
        rcases List.mem_cons.mp hp with rfl | hp'
        · simpa [Option.isSome_iff_ne_none, Option.isNone_iff_eq_none] using h
        · exact hall p hp'
      · intro hall p hp
        exact hall p (List.mem_cons_of_mem _ hp)

/-- C2 (amended): construction fails with an error exactly when some
setpoint key is missing from the tracked concentrations *after* they
have been augmented with a zero default for every exchange-reaction
metabolite (`_init_missing_metabolites` runs before
`_check_setpoint_keys`); the check does not consult the user-supplied
mapping alone.  The failure, when it happens, is at construction,
before any step runs. -/
theorem C2_setpoint_validation (M0 : Model) (cfg : Config) :
    (mkSimulator M0 cfg).isOk = true ↔
      ∀ p ∈ cfg.setpoints,
        (dget (init_missing_metabolites M0 cfg.ext_conc) p.1).isSome = true := by
  rw [← check_setpoint_keys_isOk]
  simp only [mkSimulator]
  cases hc : check_setpoint_keys cfg.setpoints (init_missing_metabolites M0 cfg.ext_conc) with
  | error e => simp [Except.isOk, Except.toBool]
  | ok u => simp [Except.isOk, Except.toBool]

/-- C2 witness: a configuration whose setpoint key is tracked only via
the zero-default augmentation still constructs successfully. -/
theorem C2_setpoint_validation_witness :
    (mkSimulator testModel cfgSetO2).isOk = true :=
  (C2_setpoint_validation testModel cfgSetO2).mpr (by decide)

/-- C2 counterexample: the setpoint key `o2_e` is *not* among the
user-supplied initial tracked concentrations (`cfgSetO2.ext_conc = []`),
yet construction succeeds — refuting the claim that construction fails
for every configuration whose setpoint key is missing from the
user-supplied mapping. -/
theorem C2_counterexample :
    dget cfgSetO2.ext_conc "o2_e" = none ∧
      (mkSimulator testModel cfgSetO2).isOk = true := by
  exact ⟨by decide, by decide⟩

/-! ### Claim C4 -/

/-- C4: for every tracked metabolite of the exchange map (with distinct
reaction ids), the dynamic-bounds pass sets the associated reaction's
lower bound to `-Vmax*C/(Km+C)` with `C = max(conc, 0)` when `C > 0`
and to `0` when `C = 0`, with `Vmax` defaulting to `10.0` and `Km` to
`0.01`; and for `Vmax, Km > 0` the bound magnitude never exceeds `Vmax`
and grows monotonically with the concentration. -/
theorem C4_bounds_formula :
    (∀ (s : SimState) (M' : Model) (mid rid : String) (c0 : ℚ),
        (s.exchange_reactions_map.map Prod.snd).Nodup →
        (mid, rid) ∈ s.exchange_reactions_map →
        dget s.ext_conc mid = some c0 →
        updateBoundsList s.vmax_params s.km_params s.ext_conc s.model
          s.exchange_reactions_map = .ok M' →
        (findRxn M'.reactions rid).map Reaction.lower_bound =
          some (if 0 < max c0 0 then
                  -1 * ((dget s.vmax_params rid).getD 10) * max c0 0 /
                    (((dget s.km_params rid).getD (1/100)) + max c0 0)
                else 0))
    ∧ (∀ vmax km c c' : ℚ, 0 < vmax → 0 < km → 0 ≤ c → c ≤ c' →
        |uptakeVal vmax km c| ≤ vmax ∧
        |uptakeVal vmax km c| ≤ |uptakeVal vmax km c'|) := by
  constructor
  · intro s M' mid rid c0 hnd hmem hc h
    rw [ubl_mem s.vmax_params s.km_params s.ext_conc mid rid c0
      s.exchange_reactions_map s.model M' hnd hmem hc h]
    rw [uptakeVal]
  · intro vmax km c c' hv hk hc hcc'
    have habs : ∀ x : ℚ, 0 ≤ x → |uptakeVal vmax km x| = vmax * x / (km + x) := by
      intro x hx
      rcases lt_or_eq_of_le hx with hx' | hx'
      · rw [uptakeVal, if_pos hx']
        have hkx : 0 < km + x := by linarith
        have : -1 * vmax * x / (km + x) = -(vmax * x / (km + x)) := by ring
        rw [this, abs_neg, abs_of_nonneg (by positivity)]
      · rw [uptakeVal, if_neg (by rw [← hx']; exact lt_irrefl 0)]
        rw [← hx']
        simp
    have hc' : (0:ℚ) ≤ c' := le_trans hc hcc'
    have hkc : (0:ℚ) < km + c := by linarith
    have hkc' : (0:ℚ) < km + c' := by linarith
    constructor
    · rw [habs c hc]
      rw [div_le_iff₀ hkc]
      nlinarith
    · rw [habs c hc, habs c' hc']
      rw [div_le_div_iff₀ hkc hkc']
      nlinarith [mul_le_mul_of_nonneg_left hcc' (mul_pos hv hk).le]

/-- C4 witness: in the glucose configuration the bound on `EX_glc_e` is
set to `-10*10/(0.01+10) = -10000/1001`, and the magnitude bound and
monotonicity hold at `Vmax = 10`, `Km = 0.01`, `C = 5 ≤ 10`. -/
theorem C4_bounds_formula_witness :
    (findRxn mBnd.reactions "EX_glc_e").map Reaction.lower_bound =
        some (-(10000/1001)) ∧
      |uptakeVal 10 (1/100) 5| ≤ 10 ∧
      |uptakeVal 10 (1/100) 5| ≤ |uptakeVal 10 (1/100) 10| := by
  refine ⟨?_, ?_, ?_⟩
  · rw [C4_bounds_formula.1 simB mBnd "glc_e" "EX_glc_e" 10 (by decide) (by decide)
      (by decide) (by with_unfolding_all rfl)]
    with_unfolding_all rfl
  · exact (C4_bounds_formula.2 10 (1/100) 5 10 (by norm_num) (by norm_num)
      (by norm_num) (by norm_num)).1
  · exact (C4_bounds_formula.2 10 (1/100) 5 10 (by norm_num) (by norm_num)
      (by norm_num) (by norm_num)).2

/-! ### Claim C6 -/

/-- C6 (amended): the inhibition-range contract the code enforces is
`[0, 1]`, not `(0, 1]`: a step that completes has `0 ≤ inh ≤ 1`, and a
computed factor outside `[0, 1]` makes the step raise (`ValueError`)
rather than clamp; a factor of exactly `0` (e.g. from `Kn = 0`) is
accepted without error. -/
theorem C6_inhibition_range :
    (∀ (s : SimState) (sol : Solution) (t : Nat) (s' : SimState) (mu inh : ℚ),
        step s sol t = .ok (s', mu, inh) → 0 ≤ inh ∧ inh ≤ 1)
    ∧ (∀ (s : SimState) (sol : Solution) (t : Nat) (M1 : Model) (inh : ℚ),
        updateBoundsList s.vmax_params s.km_params s.ext_conc s.model
          s.exchange_reactions_map = .ok M1 →
        inhibRxnsList M1 s.ext_conc 1 s.kn_params = .ok inh →
        ¬(0 ≤ inh ∧ inh ≤ 1) →
        ∀ r, step s sol t ≠ .ok r) := by
  constructor
  · intro s sol t s' mu inh h
    obtain ⟨M1, conc2, rc, _, _, _, hrange, _⟩ := step_ok_elim s sol t s' mu inh h
    exact hrange
  · intro s sol t M1 inh hb hi hbad r hok
    obtain ⟨s', mu, inh'⟩ := r
    obtain ⟨M1', conc2, rc, hb', hi', _, hrange, _⟩ :=
      step_ok_elim s sol t s' mu inh' hok
    rw [hb] at hb'
    have hM : M1' = M1 := by
      simpa using hb'.symm
    rw [hM] at hi'
    rw [hi] at hi'
    have : inh' = inh := by simpa using hi'.symm
    rw [this] at hrange
    exact hbad hrange

/-- C6 witness: the step from the `Kn = 0` configuration completes and
its inhibition factor is inside `[0, 1]`. -/
theorem C6_inhibition_range_witness :
    0 ≤ resKn0.2.2 ∧ resKn0.2.2 ≤ 1 :=
  C6_inhibition_range.1 simKn0 solOpt0 0 resKn0.1 resKn0.2.1 resKn0.2.2
    (by with_unfolding_all rfl)

/-- C6 counterexample: with `Kn = 0` on `EX_ac_e` and `ac_e = 1` the
computed factor is exactly `0`, which is outside `(0, 1]`, yet the step
completes without raising — refuting both that the factor always lies
in `(0, 1]` and that every violation of that interval raises. -/
theorem C6_counterexample :
    (step simKn0 solOpt0 0).isOk = true ∧
      (step simKn0 solOpt0 0).toOption.map (fun r => r.2.2) = some 0 ∧
      ¬(0 < (0:ℚ)) := by
  exact ⟨by with_unfolding_all decide, by with_unfolding_all decide, by norm_num⟩

/-! ### Claim C9 -/

/-- C9: with `clip_negative = true`, a step taken from a state whose
tracked concentrations are all non-negative leaves every tracked
concentration non-negative, for arbitrary oracle fluxes, biomass, and
timestep: any value driven below zero is clamped to `0` inside the same
step. -/
theorem C9_clip_nonneg (s : SimState) (sol : Solution) (t : Nat)
    (hclip : s.clip_negative = true)
    (hnn : allNonneg s.ext_conc = true)
    (hok : (step s sol t).isOk = true) :
    (step s sol t).toOption.map (fun r => allNonneg r.1.ext_conc) = some true := by
  cases hr : step s sol t with
  | error e => rw [hr] at hok; simp [Except.isOk, Except.toBool] at hok
  | ok r =>
    obtain ⟨s', mu, inh⟩ := r
    obtain ⟨M1, conc2, rc, _, _, hu, _, _, _, rfl⟩ := step_ok_elim s sol t s' mu inh hr
    rw [hclip] at hu
    have := ucl_allNonneg sol.fluxes s.setpoints s.biomass s.dt_hr s.volume
      s.exchange_reactions_map s.ext_conc conc2 ((allNonneg_iff _).mp hnn) hu
    simp [Except.toOption, (allNonneg_iff conc2).mpr this]

/-- C9 witness: the scenario-A step keeps all tracked concentrations
non-negative. -/
theorem C9_clip_nonneg_witness :
    (step simB solA 0).toOption.map (fun r => allNonneg r.1.ext_conc) = some true :=
  C9_clip_nonneg simB solA 0 (by decide) (by decide) (by with_unfolding_all decide)

/-! ### Claim C10 -/

/-- C10: for `1 ≤ n_steps ≤ 9`, a run that completes normally with
`verbose = False` raises `ZeroDivisionError` with `verbose = True`,
because `print_every = int(n_steps / 10)` is `0` and is used as the
modulus of the first step's progress check. -/
theorem C10_verbose_div_zero (s : SimState) (o : Nat → Solution) (n : Nat)
    (h1 : 1 ≤ n) (h9 : n ≤ 9)
    (hf : s.solution_feasible = true)
    (hok : (runSim s o n false).isOk = true) :
    runSim s o n true = .error .zeroDivisionError := by
  obtain ⟨m, rfl⟩ : ∃ m, n = m + 1 := ⟨n - 1, by omega⟩
  have hpe : (m + 1) / 10 = 0 := Nat.div_eq_of_lt (by omega)
  have hstep : ∃ r, step s (o 0) 0 = .ok r := by
    rw [runSim, runAux_succ, hf] at hok
    simp only [if_true] at hok
    cases hst : step s (o 0) 0 with
    | error e =>
      rw [hst] at hok
      simp [Except.isOk, Except.toBool] at hok
    | ok r => exact ⟨r, rfl⟩
  obtain ⟨r, hst⟩ := hstep
  obtain ⟨s1, mu1, inh1⟩ := r
  rw [runSim, runAux_succ, hf]
  simp only [if_true]
  rw [hst]
  simp [hpe]

/-- C10 witness: a 3-step run from the glucose configuration completes
with `verbose = False` and raises `ZeroDivisionError` with
`verbose = True`. -/
theorem C10_verbose_div_zero_witness :
    (runSim simB oracleOpt 3 false).isOk = true ∧
      runSim simB oracleOpt 3 true = .error .zeroDivisionError :=
  ⟨by with_unfolding_all decide, C10_verbose_div_zero simB oracleOpt 3 (by norm_num)
    (by norm_num) (by decide) (by with_unfolding_all decide)⟩

/-! ### Claim C5 -/

/-- C5: the inhibition factor equals the product, over all
`(reaction_id, Kn)` entries and over each reaction's qualifying
metabolites (extracellular suffix, tracked, positive concentration), of
the per-metabolite factors `Kn/(Kn + C)`; in particular for two
parameters on disjoint reactions with one qualifying metabolite each
the factor is `(Kn1/(Kn1+C1)) * (Kn2/(Kn2+C2))`. -/
theorem C5_inhibition_product :
    (∀ (M : Model) (conc knp : List (String × ℚ)) (f : ℚ),
        inhibRxnsList M conc 1 knp = .ok f →
        f = (knp.map (rxnFactorOf M conc)).prod)
    ∧ (∀ (M : Model) (conc : List (String × ℚ)) (r1 r2 : String)
        (k1 k2 c1 c2 : ℚ) (rx1 rx2 : Reaction) (m1 m2 : Metabolite) (f : ℚ),
        getByIdOpt M r1 = some rx1 → rx1.metabolites = [m1] →
        endsUnderscoreE m1.id = true → dget conc m1.id = some c1 → 0 < c1 →
        getByIdOpt M r2 = some rx2 → rx2.metabolites = [m2] →
        endsUnderscoreE m2.id = true → dget conc m2.id = some c2 → 0 < c2 →
        inhibRxnsList M conc 1 [(r1, k1), (r2, k2)] = .ok f →
        f = (k1 / (k1 + c1)) * (k2 / (k2 + c2))) := by
  have hgen : ∀ (M : Model) (conc knp : List (String × ℚ)) (f : ℚ),
      inhibRxnsList M conc 1 knp = .ok f →
      f = (knp.map (rxnFactorOf M conc)).prod := by
    intro M conc knp f h
    rw [irl_ok M conc knp 1 f h]
    ring
  refine ⟨hgen, ?_⟩
  intro M conc r1 r2 k1 k2 c1 c2 rx1 rx2 m1 m2 f hg1 hm1 he1 hc1 hp1 hg2 hm2 he2 hc2 hp2 h
  rw [hgen M conc [(r1, k1), (r2, k2)] f h]
  have hf1 : rxnFactorOf M conc (r1, k1) = k1 / (k1 + c1) := by
    simp [rxnFactorOf, hg1, hm1, metFactor, he1, hc1, max_eq_left hp1.le, hp1]
  have hf2 : rxnFactorOf M conc (r2, k2) = k2 / (k2 + c2) := by
    simp [rxnFactorOf, hg2, hm2, metFactor, he2, hc2, max_eq_left hp2.le, hp2]
  simp [hf1, hf2]

/-- C5 witness: two inhibitors `(R1, Kn=1/2)` and `(R2, Kn=1/4)` on
disjoint reactions with qualifying concentrations `2` and `3` compound
to `(1/2)/(5/2) * (1/4)/(13/4) = 1/65`. -/
theorem C5_inhibition_product_witness :
    ((1:ℚ)/65) = ((1:ℚ)/2 / ((1:ℚ)/2 + 2)) * ((1:ℚ)/4 / ((1:ℚ)/4 + 3)) :=
  C5_inhibition_product.2 inhibModel inhibConc "R1" "R2" (1/2) (1/4) 2 3
    ⟨"R1", [⟨"p1_e", "e"⟩], 0, 0, false⟩ ⟨"R2", [⟨"p2_e", "e"⟩], 0, 0, false⟩
    ⟨"p1_e", "e"⟩ ⟨"p2_e", "e"⟩ (1/65)
    (by decide) (by decide) (by decide) (by decide) (by norm_num)
    (by decide) (by decide) (by decide) (by decide) (by norm_num)
    (by with_unfolding_all rfl)

/-! ### Claim C7 -/

/-- C7: one step is explicit Euler integration: a tracked exchange-map
metabolite not in the setpoints (exchange-map keys distinct) changes by
`flux(rid) * biomass * dt_hr / volume` computed with the pre-step
biomass — provided the clip does not engage — and the biomass becomes
`biomass + mu*inhibition*biomass*dt_hr` with `mu` the oracle's growth
flux, so biomass does not decrease when `mu*inhibition ≥ 0` (for
non-negative biomass and timestep). -/
theorem C7_euler_step (s : SimState) (sol : Solution) (t : Nat)
    (s' : SimState) (mu inh : ℚ) (mid rid : String) (c : ℚ)
    (hstep : step s sol t = .ok (s', mu, inh))
    (hnd : (s.exchange_reactions_map.map Prod.fst).Nodup)
    (hmem : (mid, rid) ∈ s.exchange_reactions_map)
    (hsp : dget s.setpoints mid = none)
    (hc : dget s.ext_conc mid = some c)
    (hnoclip : s.clip_negative = false ∨
      0 ≤ c + sol.fluxes rid * s.biomass * s.dt_hr / s.volume) :
    dget s'.ext_conc mid =
        some (c + sol.fluxes rid * s.biomass * s.dt_hr / s.volume) ∧
      s'.biomass = s.biomass + mu * inh * s.biomass * s.dt_hr ∧
      mu = sol.fluxes s.BIOMASS_RXN ∧
      (0 ≤ mu * inh → 0 ≤ s.biomass → 0 ≤ s.dt_hr → s.biomass ≤ s'.biomass) := by
  obtain ⟨M1, conc2, rc, _, _, hu, _, _, hmu, rfl⟩ :=
    step_ok_elim s sol t s' mu inh hstep
  have hval := ucl_mem sol.fluxes s.setpoints s.biomass s.dt_hr s.volume
    s.clip_negative mid rid c s.exchange_reactions_map s.ext_conc conc2
    hnd hmem hsp hc hu
  have hcond : ¬(s.clip_negative = true ∧
      c + sol.fluxes rid * s.biomass * s.dt_hr / s.volume < 0) := by
    rcases hnoclip with hcl | hge
    · intro hcontra
      rw [hcl] at hcontra
      exact absurd hcontra.1 (by simp)
    · intro hcontra
      exact absurd hcontra.2 (not_lt.mpr hge)
  rw [if_neg hcond] at hval
  refine ⟨hval, rfl, hmu, ?_⟩
  intro hmuinh hb hdt
  have : 0 ≤ mu * inh * s.biomass * s.dt_hr :=
    mul_nonneg (mul_nonneg hmuinh hb) hdt
  simp only
  linarith

/-- C7 witness: scenario A — glucose flux `-9.99`, growth flux `0.5`,
biomass `2`, `dt = 0.01 s`: after one step the glucose concentration is
`10 - 9.99*2*(0.01/3600)/1` and the biomass has not decreased. -/
theorem C7_euler_step_witness :
    dget resA.1.ext_conc "glc_e" =
        some (10 + solA.fluxes "EX_glc_e" * simB.biomass * simB.dt_hr / simB.volume) ∧
      resA.1.biomass = simB.biomass + resA.2.1 * resA.2.2 * simB.biomass * simB.dt_hr ∧
      simB.biomass ≤ resA.1.biomass := by
  have h := C7_euler_step simB solA 0 resA.1 resA.2.1 resA.2.2 "glc_e" "EX_glc_e" 10
    (by with_unfolding_all rfl) (by decide) (by decide) (by decide) (by decide)
    (Or.inr (by with_unfolding_all decide))
  exact ⟨h.1, h.2.1, h.2.2.2 (by with_unfolding_all decide) (by decide)
    (by with_unfolding_all decide)⟩

/-! ### Claim C8 -/

/-- C8: a setpoint metabolite's stored concentration is identical
before and after any number of steps, for every oracle behaviour — the
concentration integrator skips setpoint metabolites entirely. -/
theorem C8_setpoint_unchanged (s : SimState) (o : Nat → Solution) (n : Nat)
    (vb : Bool) (m : String)
    (hm : (dget s.setpoints m).isSome = true)
    (hok : (runSim s o n vb).isOk = true) :
    (runSim s o n vb).toOption.map (fun x => dget x.ext_conc m) =
      some (dget s.ext_conc m) := by
  cases hr : runSim s o n vb with
  | error e => rw [hr] at hok; simp [Except.isOk, Except.toBool] at hok
  | ok s' =>
    have hP : (dget s'.setpoints m).isSome = true ∧
        dget s'.ext_conc m = dget s.ext_conc m := by
      refine runAux_preserve o (n / 10) vb
        (fun x => (dget x.setpoints m).isSome = true ∧
          dget x.ext_conc m = dget s.ext_conc m) ?_ n 0 s s' hr ⟨hm, rfl⟩
      intro x sol t x' mux inhx hst hP
      obtain ⟨M1, conc2, rc, _, _, hu, _, _, _, rfl⟩ :=
        step_ok_elim x sol t x' mux inhx hst
      refine ⟨hP.1, ?_⟩
      have := ucl_setpoint sol.fluxes x.setpoints x.biomass x.dt_hr x.volume
        x.clip_negative m x.exchange_reactions_map x.ext_conc conc2 hP.1 hu
      simp only
      rw [this, hP.2]
    simp only [Except.toOption, Option.map]
    rw [hP.2]

/-- C8 witness: over a 2-step run with a nonzero `o2_e` exchange flux
the setpoint metabolite's stored value is unchanged. -/
theorem C8_setpoint_unchanged_witness :
    (runSim simO2 oracleO2 2 false).toOption.map (fun x => dget x.ext_conc "o2_e") =
      some (dget simO2.ext_conc "o2_e") :=
  C8_setpoint_unchanged simO2 oracleO2 2 false "o2_e" (by decide)
    (by with_unfolding_all decide)

/-! ### Claim C1 -/

theorem ite_cond_true {α : Type} (c : Bool) (h : c = true) (a b : α) :
    (if c then a else b) = a := by
  rw [h]
  simp

/-- C1 (amended): when the oracle is optimal on steps 1 and 2 of a
requested `n ≥ 3`-step run and non-optimal on step 3, a run that raises
no exception ends with the feasibility flag false and exactly 3
recorded snapshots: the non-optimal step still appends its snapshot
(and applies its state updates) before the loop halts ahead of step
4. -/
theorem C1_infeasible_halt (s : SimState) (o : Nat → Solution) (n : Nat)
    (hf : s.solution_feasible = true)
    (h3 : 3 ≤ n)
    (hst0 : strLower (o 0).status = "optimal")
    (hst1 : strLower (o 1).status = "optimal")
    (hst2 : ¬ strLower (o 2).status = "optimal")
    (hok : (runSim s o n false).isOk = true) :
    (runSim s o n false).toOption.map
        (fun x => (x.solution_feasible, x.results_time.length)) =
      some (false, s.results_time.length + 3) := by
  obtain ⟨m, rfl⟩ : ∃ m, n = m + 3 := ⟨n - 3, by omega⟩
  cases hr : runSim s o (m + 3) false with
  | error e => rw [hr] at hok; simp [Except.isOk, Except.toBool] at hok
  | ok s' =>
    rw [runSim] at hr
    have e3 : m + 3 = (m + 2) + 1 := by omega
    rw [e3, runAux_succ, ite_cond_true _ hf] at hr
    cases hs0 : step s (o 0) 0 with
    | error e => rw [hs0] at hr; exact absurd hr (by simp)
    | ok r0 =>
      obtain ⟨s1, mu1, inh1⟩ := r0
      rw [hs0] at hr
      simp only [false_and, if_false] at hr
      have hf1 : s1.solution_feasible = true := by
        rw [(step_fields s (o 0) 0 s1 mu1 inh1 hs0).1, if_pos hst0, hf]
      have e2 : m + 2 = (m + 1) + 1 := by omega
      rw [e2, runAux_succ, ite_cond_true _ hf1] at hr
      cases hs1 : step s1 (o 1) 1 with
      | error e => rw [hs1] at hr; exact absurd hr (by simp)
      | ok r1 =>
        obtain ⟨s2, mu2, inh2⟩ := r1
        rw [hs1] at hr
        simp only [false_and, if_false] at hr
        have hf2 : s2.solution_feasible = true := by
          rw [(step_fields s1 (o 1) 1 s2 mu2 inh2 hs1).1, if_pos hst1, hf1]
        have e1 : m + 1 = m + 1 := rfl
        rw [runAux_succ, ite_cond_true _ hf2] at hr
        cases hs2 : step s2 (o 2) 2 with
        | error e => rw [hs2] at hr; exact absurd hr (by simp)
        | ok r2 =>
          obtain ⟨s3, mu3, inh3⟩ := r2
          rw [hs2] at hr
          simp only [false_and, if_false] at hr
          have hf3 : s3.solution_feasible = false := by
            rw [(step_fields s2 (o 2) 2 s3 mu3 inh3 hs2).1, if_neg hst2]
          rw [runAux_stuck o ((m + 3) / 10) false s3 3 m hf3] at hr
          have hs3' : s' = s3 := by
            simpa using hr.symm
          subst hs3'
          simp only [Except.toOption, Option.map]
          rw [hf3]
          rw [(step_fields s2 (o 2) 2 s' mu3 inh3 hs2).2.1,
            (step_fields s1 (o 1) 1 s2 mu2 inh2 hs1).2.1,
            (step_fields s (o 0) 0 s1 mu1 inh1 hs0).2.1]

/-- C1 witness: the 10-step scenario-B run ends without exception, with
the flag false and 3 snapshots. -/
theorem C1_infeasible_halt_witness :
    (runSim simB oracleB 10 false).toOption.map
        (fun x => (x.solution_feasible, x.results_time.length)) =
      some (false, simB.results_time.length + 3) :=
  C1_infeasible_halt simB oracleB 10 (by decide) (by norm_num) (by decide)
    (by decide) (by decide) (by with_unfolding_all decide)

/-- C1 counterexample: in the concrete scenario-B run (oracle optimal
on steps 1-2, infeasible on step 3, 10 steps requested) the run
completes without exception and with the flag false, but the time
series holds 3 snapshots, not 2 — the non-optimal step appends its
snapshot before the loop halts. -/
theorem C1_counterexample :
    (runSim simB oracleB 10 false).isOk = true ∧
      (runSim simB oracleB 10 false).toOption.map
          (fun x => (x.results_time.length, x.solution_feasible)) =
        some (3, false) ∧
      (3 : Nat) ≠ 2 :=
  ⟨by with_unfolding_all decide, by with_unfolding_all decide, by norm_num⟩

/-! ### Claim C3 -/

/-- C3 (amended): the value recorded for a setpoint metabolite in every
snapshot is its *initial tracked concentration* (after zero-defaulting)
— the simulator never writes the value from the setpoints mapping into
the concentration store, so the recorded value is `0.21` only when the
initial tracked concentration itself is `0.21`. -/
theorem C3_setpoint_recorded (s : SimState) (o : Nat → Solution) (n : Nat)
    (vb : Bool) (m : String) (v : ℚ)
    (hnd : (s.ext_conc.map Prod.fst).Nodup)
    (hm : (dget s.setpoints m).isSome = true)
    (hv : dget s.ext_conc m = some v)
    (hrec : ∃ h0, dget s.results_conc m = some h0 ∧ ∀ x ∈ h0, x = v)
    (hok : (runSim s o n vb).isOk = true) :
    ∃ w : List ℚ,
      (runSim s o n vb).toOption.map
          (fun x => (dget x.ext_conc m, dget x.results_conc m)) =
        some (some v, some w) ∧ ∀ x ∈ w, x = v := by
  cases hr : runSim s o n vb with
  | error e => rw [hr] at hok; simp [Except.isOk, Except.toBool] at hok
  | ok s' =>
    have hP : (s'.ext_conc.map Prod.fst).Nodup ∧
        (dget s'.setpoints m).isSome = true ∧
        dget s'.ext_conc m = some v ∧
        ∃ h0, dget s'.results_conc m = some h0 ∧ ∀ x ∈ h0, x = v := by
      refine runAux_preserve o (n / 10) vb
        (fun x => (x.ext_conc.map Prod.fst).Nodup ∧
          (dget x.setpoints m).isSome = true ∧
          dget x.ext_conc m = some v ∧
          ∃ h0, dget x.results_conc m = some h0 ∧ ∀ y ∈ h0, y = v) ?_ n 0 s s' hr
        ⟨hnd, hm, hv, hrec⟩
      intro x sol t x' mux inhx hst hPx
      obtain ⟨hxnd, hxm, hxv, h0, hh0, hall⟩ := hPx
      obtain ⟨M1, conc2, rc, _, _, hu, _, ha, _, rfl⟩ :=
        step_ok_elim x sol t x' mux inhx hst
      have hkeys := ucl_keys sol.fluxes x.setpoints x.biomass x.dt_hr x.volume
        x.clip_negative x.exchange_reactions_map x.ext_conc conc2 hu
      have hv2 : dget conc2 m = some v := by
        rw [ucl_setpoint sol.fluxes x.setpoints x.biomass x.dt_hr x.volume
          x.clip_negative m x.exchange_reactions_map x.ext_conc conc2 hxm hu]
        exact hxv
      have hrc := asl_mem m v conc2 x.results_conc rc
        (by rw [hkeys]; exact hxnd) (dget_mem conc2 m v hv2) ha
      refine ⟨by rw [hkeys]; exact hxnd, hxm, hv2, h0 ++ [v], ?_, ?_⟩
      · simp only
        rw [hrc, hh0]
        simp
      · intro y hy
        rcases List.mem_append.mp hy with hy' | hy'
        · exact hall y hy'
        · simpa using hy'
    obtain ⟨hnd', hm', hv', w, hw, hwall⟩ := hP
    refine ⟨w, ?_, hwall⟩
    simp only [Except.toOption, Option.map]
    rw [hv', hw]

/-- C3 witness: over a 5-step run with nonzero `o2_e` flux, the
recorded `o2_e` series consists entirely of the initial value `0`. -/
theorem C3_setpoint_recorded_witness :
    ∃ w : List ℚ,
      (runSim simO2 oracleO2 5 false).toOption.map
          (fun x => (dget x.ext_conc "o2_e", dget x.results_conc "o2_e")) =
        some (some 0, some w) ∧ ∀ x ∈ w, x = 0 :=
  C3_setpoint_recorded simO2 oracleO2 5 false "o2_e" 0 (by decide) (by decide)
    (by decide) ⟨[], by decide, by simp⟩ (by with_unfolding_all decide)

/-- C3 counterexample: with setpoint `o2_e = 0.21` whose exchange flux
is nonzero every step, but whose initial tracked concentration
defaulted to `0`, every one of the 100 recorded snapshots holds `0`,
not `0.21` — the setpoints mapping's value is never applied. -/
theorem C3_counterexample :
    dget simO2.setpoints "o2_e" = some (21/100) ∧
      (runSim simO2 oracleO2 100 false).toOption.map
          (fun x => dget x.results_conc "o2_e") =
        some (some (List.replicate 100 0)) ∧
      ¬((0:ℚ) = 21/100) :=
  ⟨by with_unfolding_all decide, by with_unfolding_all decide, by norm_num⟩

end DynFBA
